import Mathlib

/-
Verification of the linkchecker engine: a shallow embedding of the
circuit breaker, the per-link checker (SSRF guard, retry loop), the
orchestrating CheckLinks service, and the append-only FileStorage with
its replay-based Load, together with theorems settling the specified
properties.

Conventions of the embedding:
- Go machine integers carry task ids, counters and millisecond
  timestamps; all of them are non-negative in every reachable state, so
  they are modelled as Nat.
- Go maps are modelled as association lists with insert-or-replace and
  first-match lookup (Go map keys are unique, which insertA preserves).
- External capabilities (URL parsing, IP literal parsing, DNS lookup,
  the HTTP transport, context expiry, the wall clock) are injected as a
  record of functions, mirroring the injected ports of the program.
- Fallible appends of the task repository are modelled by a Boolean
  outcome parameter; the appended entries accumulate in a log field.
-/

set_option maxRecDepth 2000

/-- Association list lookup: first entry with the given key, as Go map
indexing (absent key handled by the caller). -/
def findA {κ ν : Type} [DecidableEq κ] : List (κ × ν) → κ → Option ν
  | [], _ => none
  | (k1, v1) :: rest, k => if k1 = k then some v1 else findA rest k

/-- Association list insert-or-replace, as Go map assignment. -/
def insertA {κ ν : Type} [DecidableEq κ] : List (κ × ν) → κ → ν → List (κ × ν)
  | [], k, v => [(k, v)]
  | (k1, v1) :: rest, k, v =>
    if k1 = k then (k, v) :: rest else (k1, v1) :: insertA rest k v

/-- Association list deletion of every entry with the key, as Go map
delete (keys are unique in maps built by insertA). -/
def eraseA {κ ν : Type} [DecidableEq κ] : List (κ × ν) → κ → List (κ × ν)
  | [], _ => []
  | (k1, v1) :: rest, k =>
    if k1 = k then eraseA rest k else (k1, v1) :: eraseA rest k

/-- Per-link status enumeration of the domain package. -/
inductive LinkStatus where
  | available
  | notAvailable
  deriving DecidableEq, Repr

/-- String form of a status, as the Go constants StatusAvailable and
StatusNotAvailable. -/
def statusStr : LinkStatus → String
  | .available => "available"
  | .notAvailable => "not available"

/-- A link-check task: id, submitted links in order, and the result
mapping from link to status string (replaced wholesale by updates). -/
structure Domain.Task where
  id : Nat
  links : List String
  result : List (String × String)
  deriving DecidableEq, Repr

/-- One persisted record of the append-only log, as the Go LogEntry
struct: op tag, optional task snapshot for create, task id and result
for update, and a timestamp. Absent fields hold Go zero values. -/
structure LogEntry where
  op : String
  task : Option Domain.Task
  taskID : Nat
  result : List (String × String)
  ts : Nat
  deriving DecidableEq, Repr

/-- The in-memory index of FileStorage: next task id and the id-keyed
task map. -/
structure MemIndex where
  nextID : Nat
  tasks : List (Nat × Domain.Task)
  deriving DecidableEq, Repr

/-- FileStorage state: the in-memory index plus the durably appended
log held by the repository. -/
structure FileStorage where
  mem : MemIndex
  log : List LogEntry
  deriving DecidableEq, Repr

/-- FileStorage.applyEntry: replay one log entry into the index.
Create entries (with a snapshot present) insert a task copy and raise
nextID if needed; update entries with a known, non-zero task id replace
that task's result; everything else is ignored. -/
def MemIndex.applyEntry (s : MemIndex) (e : LogEntry) : MemIndex :=
  if e.op = "create" then
    match e.task with
    | none => s
    | some t =>
      { nextID := if t.id ≥ s.nextID then t.id + 1 else s.nextID,
        tasks := insertA s.tasks t.id { id := t.id, links := t.links, result := t.result } }
  else if e.op = "update" then
    if e.taskID = 0 then s
    else
      match findA s.tasks e.taskID with
      | none => s
      | some t =>
        { nextID := s.nextID,
          tasks := insertA s.tasks e.taskID { id := t.id, links := t.links, result := e.result } }
  else s

/-- Replay a list of entries in order into an empty index with nextID
set to 1, as FileStorage.Load does after reading the repository. -/
def replay (entries : List LogEntry) : MemIndex :=
  entries.foldl MemIndex.applyEntry { nextID := 1, tasks := [] }

/-- FileStorage.Load from a repository holding the given entries. -/
def FileStorage.load (entries : List LogEntry) : FileStorage :=
  { mem := replay entries, log := entries }

/-- FileStorage.CreateTask: allocate the next id, insert the fresh task
into the index, then append a create entry; appendOk is the outcome of
the repository append. On failure an error (none) is returned; the code
performs the index insert and the nextID increment before the append
and does not undo them. -/
def FileStorage.createTask (s : FileStorage) (links : List String)
    (appendOk : Bool) (now : Nat) : Option Domain.Task × FileStorage :=
  let id := s.mem.nextID
  let t : Domain.Task := { id := id, links := links, result := [] }
  let mem1 : MemIndex := { nextID := id + 1, tasks := insertA s.mem.tasks id t }
  if appendOk then
    (some t, { mem := mem1,
               log := s.log ++ [{ op := "create", task := some t, taskID := 0,
                                  result := [], ts := now }] })
  else
    (none, { mem := mem1, log := s.log })

/-- FileStorage.UpdateTaskResult: look the task up (error if absent),
replace its result in the index, then append an update entry; appendOk
is the outcome of the repository append, whose error is surfaced. -/
def FileStorage.updateTaskResult (s : FileStorage) (id : Nat)
    (result : List (String × String)) (appendOk : Bool) (now : Nat) :
    Except String Unit × FileStorage :=
  match findA s.mem.tasks id with
  | none => (Except.error "task not found", s)
  | some t =>
    let mem1 : MemIndex :=
      { nextID := s.mem.nextID,
        tasks := insertA s.mem.tasks id { id := t.id, links := t.links, result := result } }
    if appendOk then
      (Except.ok (), { mem := mem1,
                       log := s.log ++ [{ op := "update", task := none, taskID := id,
                                          result := result, ts := now }] })
    else
      (Except.error "append error", { mem := mem1, log := s.log })

/-- FileStorage.GetTasks: defensive copies for the ids present in the
index, silently skipping absent ones. -/
def FileStorage.getTasks (s : FileStorage) (ids : List Nat) : List Domain.Task :=
  ids.filterMap (fun id => findA s.mem.tasks id)

/-- Per-host circuit breaker state: failure counters and last-failure
timestamps (milliseconds), with threshold and cooldown settings. -/
structure CircuitBreaker where
  failures : List (String × Nat)
  lastSeen : List (String × Nat)
  threshold : Nat
  cooldown : Nat
  deriving DecidableEq, Repr

/-- newCircuitBreaker: defaults of threshold 3 and cooldown 30s apply
when the arguments are zero. -/
def newCircuitBreaker (threshold cooldown : Nat) : CircuitBreaker :=
  { failures := [], lastSeen := [],
    threshold := if threshold = 0 then 3 else threshold,
    cooldown := if cooldown = 0 then 30000 else cooldown }

/-- Failure count recorded for a host (Go map read with zero default). -/
def CircuitBreaker.failuresOf (cb : CircuitBreaker) (host : String) : Nat :=
  (findA cb.failures host).getD 0

/-- Last-failure timestamp recorded for a host (zero default). -/
def CircuitBreaker.lastSeenOf (cb : CircuitBreaker) (host : String) : Nat :=
  (findA cb.lastSeen host).getD 0

/-- circuitBreaker.allow: empty hosts pass; below threshold passes;
at or above threshold, pass and clear the host's counters only once the
cooldown since the last failure has elapsed, otherwise deny. Returns
the decision and the possibly cleared state. -/
def CircuitBreaker.allow (cb : CircuitBreaker) (now : Nat) (host : String) :
    Bool × CircuitBreaker :=
  if host = "" then (true, cb)
  else if cb.failuresOf host < cb.threshold then (true, cb)
  else if now - cb.lastSeenOf host > cb.cooldown then
    (true, { cb with failures := eraseA cb.failures host,
                     lastSeen := eraseA cb.lastSeen host })
  else (false, cb)

/-- circuitBreaker.success: clear the host's counters unconditionally
(no-op for the empty host). -/
def CircuitBreaker.success (cb : CircuitBreaker) (host : String) : CircuitBreaker :=
  if host = "" then cb
  else { cb with failures := eraseA cb.failures host,
                 lastSeen := eraseA cb.lastSeen host }

/-- circuitBreaker.failure: increment the host's failure counter and
stamp the current time (no-op for the empty host). -/
def CircuitBreaker.failure (cb : CircuitBreaker) (now : Nat) (host : String) :
    CircuitBreaker :=
  if host = "" then cb
  else { cb with failures := insertA cb.failures host (cb.failuresOf host + 1),
                 lastSeen := insertA cb.lastSeen host now }

/-- An IP address as the SSRF guard inspects it: an IPv4 address by its
four octets (the To4 view), or an IPv6 address by the class predicates
the guard consults. -/
inductive IPAddr where
  | v4 (a b c d : Nat)
  | v6 (loopback linkLocalUnicast linkLocalMulticast : Bool)
  deriving DecidableEq, Repr

/-- isPrivateIP: the private/loopback/link-local classification switch
of the SSRF guard (10/8, 172.16/12, 192.168/16, 127/8, 169.254/16 for
IPv4; the loopback and link-local classes for IPv6). -/
def isPrivateIP : IPAddr → Bool
  | .v4 a b _ _ =>
    if a = 10 then true
    else if a = 172 ∧ 16 ≤ b ∧ b ≤ 31 then true
    else if a = 192 ∧ b = 168 then true
    else if a = 127 then true
    else if a = 169 ∧ b = 254 then true
    else false
  | .v6 lo llu llm => lo || llu || llm

/-- Outcome of one transport invocation: an error (with whether the
shared context was observed expired right after), or a response with a
status code. -/
inductive TranspRes where
  | transErr (ctxDone : Bool)
  | resp (status : Nat)
  deriving DecidableEq, Repr

/-- The injected external capabilities a per-link check consults: URL
parsing (Hostname extraction), IP literal parsing, DNS lookup (none is
a resolution error), request construction failure, the HTTP transport
by attempt index, context expiry during the backoff waits, and the
clock at each attempt and at the breaker gate. -/
structure CheckEnv where
  parseURLHost : String → Option String
  parseIP : String → Option IPAddr
  lookupIP : String → Option (List IPAddr)
  reqFails : String → Nat → Bool
  transport : String → Nat → TranspRes
  waitInterrupted : Nat → Bool
  timeAt : Nat → Nat
  startTime : Nat

/-- isPrivateHost: an IP-literal host is classified directly; otherwise
the host is resolved, a failed or empty resolution is private
(fail-safe deny), and a resolved list is private only when every
address in it is private. -/
def isPrivateHost (env : CheckEnv) (host : String) : Bool :=
  match env.parseIP host with
  | some ip => isPrivateIP ip
  | none =>
    match env.lookupIP host with
    | none => true
    | some ips => if ips.isEmpty then true else ips.all isPrivateIP

/-- Character rejected by the syntax validation of a link. -/
def badURLChar (c : Char) : Bool :=
  c = '/' || c = '?' || c = '#' || c = ':'

/-- Whitespace trimming at the character level, as strings.TrimSpace:
drop leading and trailing whitespace characters. -/
def trimChars (s : String) : List Char :=
  ((s.toList.dropWhile Char.isWhitespace).reverse.dropWhile Char.isWhitespace).reverse

/-- Modelled from the spec: validateURL, the syntax-validation step of
the checker, whose implementation is absent from the sources (only its
table test TestValidateURL is present). Per the spec it trims
whitespace and rejects the link when the remainder is empty or contains
any of the characters slash, question mark, hash or colon. -/
def validateURL (link : String) : Bool :=
  let t := trimChars link
  if t = [] then false else !(t.any badURLChar)

/-- Character-level string prefix test (the Go slicing comparisons of
checkLink). -/
def startsWithChars : List Char → List Char → Bool
  | _, [] => true
  | [], _ :: _ => false
  | a :: s, b :: p => a = b && startsWithChars s p

/-- URL normalization of checkLink: prepend the https scheme unless an
explicit http or https scheme is already present. -/
def normalizeURL (link : String) : String :=
  if startsWithChars link.toList "http://".toList ||
     startsWithChars link.toList "https://".toList then link
  else "https://" ++ link

/-- The backoff schedule of the per-link retry loop, in milliseconds. -/
def backoffs : List Nat := [100, 300, 900]

/-- Result of one per-link check: the terminal status, the transport
invocations made (request URL per attempt, in order), the backoff waits
performed (in order), and the circuit breaker state afterwards. -/
structure CheckOut where
  status : LinkStatus
  calls : List String
  waits : List Nat
  breaker : CircuitBreaker
  deriving DecidableEq, Repr

/-- The retry loop of checkLink over the remaining backoff schedule.
Each iteration builds a request (failure returns NotAvailable), invokes
the transport once, records a breaker success and returns Available on
a status in 200..399, records a breaker failure otherwise (stopping at
once when the context is already expired after a transport error), and
between attempts waits the scheduled backoff unless the context expires
first; exhausting the schedule yields NotAvailable. -/
def retryLoop (env : CheckEnv) (url host : String) :
    List Nat → Nat → CircuitBreaker → CheckOut
  | [], _, cb => { status := .notAvailable, calls := [], waits := [], breaker := cb }
  | d :: rest, i, cb =>
    if env.reqFails url i then
      { status := .notAvailable, calls := [], waits := [], breaker := cb }
    else
      match env.transport url i with
      | .resp st =>
        if 200 ≤ st ∧ st < 400 then
          { status := .available, calls := [url], waits := [], breaker := cb.success host }
        else
          let cb1 := cb.failure (env.timeAt i) host
          match rest with
          | [] => { status := .notAvailable, calls := [url], waits := [], breaker := cb1 }
          | _ :: _ =>
            if env.waitInterrupted i then
              { status := .notAvailable, calls := [url], waits := [], breaker := cb1 }
            else
              let out := retryLoop env url host rest (i + 1) cb1
              { status := out.status, calls := url :: out.calls,
                waits := d :: out.waits, breaker := out.breaker }
      | .transErr ctxDone =>
        let cb1 := cb.failure (env.timeAt i) host
        if ctxDone then
          { status := .notAvailable, calls := [url], waits := [], breaker := cb1 }
        else
          match rest with
          | [] => { status := .notAvailable, calls := [url], waits := [], breaker := cb1 }
          | _ :: _ =>
            if env.waitInterrupted i then
              { status := .notAvailable, calls := [url], waits := [], breaker := cb1 }
            else
              let out := retryLoop env url host rest (i + 1) cb1
              { status := out.status, calls := url :: out.calls,
                waits := d :: out.waits, breaker := out.breaker }

/-- Service.checkLink as implemented in the sources, after the syntax
gate: normalize the URL, extract the host (parse failure is
NotAvailable), deny private hosts, consult the breaker gate, then run
the retry loop. -/
def Service.checkLinkBody (env : CheckEnv) (cb : CircuitBreaker) (link : String) :
    CheckOut :=
  let url := normalizeURL link
  match env.parseURLHost url with
  | none => { status := .notAvailable, calls := [], waits := [], breaker := cb }
  | some host =>
    if isPrivateHost env host then
      { status := .notAvailable, calls := [], waits := [], breaker := cb }
    else
      let gate := cb.allow env.startTime host
      if gate.1 then retryLoop env url host backoffs 0 gate.2
      else { status := .notAvailable, calls := [], waits := [], breaker := gate.2 }

/-- The full per-link check: the spec-modelled syntax validation gate
(see validateURL) in front of the checkLink body from the sources. -/
def Service.checkLink (env : CheckEnv) (cb : CircuitBreaker) (link : String) :
    CheckOut :=
  if validateURL link then Service.checkLinkBody env cb link
  else { status := .notAvailable, calls := [], waits := [], breaker := cb }

/-- Error outcomes of CheckLinks: the storage error of a failed create,
or the dedicated ErrResultPersistDeferred sentinel. -/
inductive SvcErr where
  | createFailed
  | persistDeferred
  deriving DecidableEq, Repr

/-- Orchestration-level environment: the per-link check capabilities,
whether each link's concurrency permit is acquired before the shared
deadline fires, the outcomes of the two storage appends, and the
timestamp used for log entries. -/
structure SvcEnv where
  check : CheckEnv
  acquired : String → Bool
  createAppendOk : Bool
  updateAppendOk : Bool
  now : Nat

/-- The fan-out over the links of a batch, one link at a time: a link
whose permit is acquired runs the per-link check (threading the
breaker) and records its status in the result map and its transport
calls in the trace; a link whose permit cannot be acquired before the
deadline is skipped entirely. -/
def runChecksAux (env : SvcEnv) :
    List String →
    List (String × LinkStatus) × CircuitBreaker × List (String × List String) →
    List (String × LinkStatus) × CircuitBreaker × List (String × List String)
  | [], acc => acc
  | link :: rest, acc =>
    if env.acquired link then
      let out := Service.checkLink env.check acc.2.1 link
      runChecksAux env rest
        (insertA acc.1 link out.status, out.breaker, acc.2.2 ++ [(link, out.calls)])
    else runChecksAux env rest acc

/-- The fan-out over a whole batch, from an empty result map and trace. -/
def runChecks (env : SvcEnv) (cb : CircuitBreaker) (links : List String) :
    List (String × LinkStatus) × CircuitBreaker × List (String × List String) :=
  runChecksAux env links ([], cb, [])

/-- The collected outcome of one CheckLinks call: returned task id,
returned result map, returned error, the storage and breaker states
afterwards, the number of background persistence retriers spawned, and
the per-link transport traces. -/
structure CLOut where
  taskID : Nat
  result : List (String × LinkStatus)
  err : Option SvcErr
  store : FileStorage
  breaker : CircuitBreaker
  retriers : Nat
  traces : List (String × List String)
  deriving DecidableEq, Repr

/-- Service.CheckLinks: create the task (a create failure aborts the
call with that error), run the gated per-link checks, then attempt the
synchronous result update; an update failure spawns one background
retrier and surfaces the ErrResultPersistDeferred sentinel while still
returning the id and the computed result map. -/
def Service.checkLinks (env : SvcEnv) (st : FileStorage) (cb : CircuitBreaker)
    (links : List String) : CLOut :=
  match st.createTask links env.createAppendOk env.now with
  | (none, st1) =>
    { taskID := 0, result := [], err := some .createFailed, store := st1,
      breaker := cb, retriers := 0, traces := [] }
  | (some t, st1) =>
    let checked := runChecks env cb links
    let strRes := checked.1.map (fun p => (p.1, statusStr p.2))
    match st1.updateTaskResult t.id strRes env.updateAppendOk env.now with
    | (Except.ok _, st2) =>
      { taskID := t.id, result := checked.1, err := none, store := st2,
        breaker := checked.2.1, retriers := 0, traces := checked.2.2 }
    | (Except.error _, st2) =>
      { taskID := t.id, result := checked.1, err := some .persistDeferred, store := st2,
        breaker := checked.2.1, retriers := 1, traces := checked.2.2 }

theorem findA_insert_self {κ ν : Type} [DecidableEq κ] (m : List (κ × ν)) (k : κ) (v : ν) :
    findA (insertA m k v) k = some v := by
  induction m with
  | nil => simp [insertA, findA]
  | cons p rest ih =>
    obtain ⟨k1, v1⟩ := p
    by_cases h : k1 = k
    · simp [insertA, findA, h]
    · simp [insertA, findA, h, ih]

theorem findA_insert_ne {κ ν : Type} [DecidableEq κ] (m : List (κ × ν)) (k k1 : κ) (v : ν)
    (hne : k1 ≠ k) : findA (insertA m k v) k1 = findA m k1 := by
  have hne1 : k ≠ k1 := fun h => hne h.symm
  induction m with
  | nil => simp [insertA, findA, hne1]
  | cons p rest ih =>
    obtain ⟨k2, v2⟩ := p
    by_cases h : k2 = k
    · subst h
      simp [insertA, findA, hne1]
    · by_cases h1 : k2 = k1 <;> simp [insertA, findA, h, h1, ih, hne]

theorem findA_erase_self {κ ν : Type} [DecidableEq κ] (m : List (κ × ν)) (k : κ) :
    findA (eraseA m k) k = none := by
  induction m with
  | nil => simp [eraseA, findA]
  | cons p rest ih =>
    obtain ⟨k1, v1⟩ := p
    by_cases h : k1 = k
    · simp [eraseA, h, ih]
    · simp [eraseA, findA, h, ih]

theorem findA_erase_ne {κ ν : Type} [DecidableEq κ] (m : List (κ × ν)) (k k1 : κ)
    (hne : k1 ≠ k) : findA (eraseA m k) k1 = findA m k1 := by
  have hne1 : k ≠ k1 := fun h => hne h.symm
  induction m with
  | nil => simp [eraseA, findA]
  | cons p rest ih =>
    obtain ⟨k2, v2⟩ := p
    by_cases h : k2 = k
    · subst h
      simp [eraseA, findA, hne1, ih]
    · simp [eraseA, findA, h, ih]

/-- Repeated breaker failures for one host at the given times. -/
def applyFailures (cb : CircuitBreaker) (host : String) (times : List Nat) :
    CircuitBreaker :=
  times.foldl (fun c t => c.failure t host) cb

theorem failure_failuresOf_self (cb : CircuitBreaker) (t : Nat) (host : String)
    (h : host ≠ "") :
    (cb.failure t host).failuresOf host = cb.failuresOf host + 1 := by
  simp [CircuitBreaker.failure, CircuitBreaker.failuresOf, h, findA_insert_self]

theorem failure_lastSeenOf_self (cb : CircuitBreaker) (t : Nat) (host : String)
    (h : host ≠ "") :
    (cb.failure t host).lastSeenOf host = t := by
  simp [CircuitBreaker.failure, CircuitBreaker.lastSeenOf, h, findA_insert_self]

theorem failure_threshold (cb : CircuitBreaker) (t : Nat) (host : String) :
    (cb.failure t host).threshold = cb.threshold := by
  by_cases h : host = "" <;> simp [CircuitBreaker.failure, h]

theorem failure_cooldown (cb : CircuitBreaker) (t : Nat) (host : String) :
    (cb.failure t host).cooldown = cb.cooldown := by
  by_cases h : host = "" <;> simp [CircuitBreaker.failure, h]

theorem applyFailures_failuresOf (host : String) (h : host ≠ "") (ts : List Nat) :
    ∀ cb : CircuitBreaker,
      (applyFailures cb host ts).failuresOf host = cb.failuresOf host + ts.length := by
  induction ts with
  | nil => intro cb; simp [applyFailures]
  | cons t rest ih =>
    intro cb
    have step : applyFailures cb host (t :: rest) = applyFailures (cb.failure t host) host rest := rfl
    rw [step, ih, failure_failuresOf_self cb t host h]
    simp
    omega

theorem applyFailures_lastSeenOf (host : String) (h : host ≠ "") (ts : List Nat) :
    ∀ cb : CircuitBreaker,
      (applyFailures cb host ts).lastSeenOf host = ts.getLastD (cb.lastSeenOf host) := by
  induction ts with
  | nil => intro cb; simp [applyFailures]
  | cons t rest ih =>
    intro cb
    have step : applyFailures cb host (t :: rest) = applyFailures (cb.failure t host) host rest := rfl
    rw [step, ih, failure_lastSeenOf_self cb t host h, List.getLastD_cons]

theorem applyFailures_threshold (cb : CircuitBreaker) (host : String) (ts : List Nat) :
    (applyFailures cb host ts).threshold = cb.threshold := by
  induction ts generalizing cb with
  | nil => simp [applyFailures]
  | cons t rest ih =>
    have step : applyFailures cb host (t :: rest) = applyFailures (cb.failure t host) host rest := rfl
    rw [step, ih, failure_threshold]

theorem applyFailures_cooldown (cb : CircuitBreaker) (host : String) (ts : List Nat) :
    (applyFailures cb host ts).cooldown = cb.cooldown := by
  induction ts generalizing cb with
  | nil => simp [applyFailures]
  | cons t rest ih =>
    have step : applyFailures cb host (t :: rest) = applyFailures (cb.failure t host) host rest := rfl
    rw [step, ih, failure_cooldown]

theorem success_failuresOf_self (cb : CircuitBreaker) (host : String) (h : host ≠ "") :
    (cb.success host).failuresOf host = 0 := by
  simp [CircuitBreaker.success, CircuitBreaker.failuresOf, h, findA_erase_self]

theorem success_threshold (cb : CircuitBreaker) (host : String) :
    (cb.success host).threshold = cb.threshold := by
  by_cases h : host = "" <;> simp [CircuitBreaker.success, h]

theorem allow_below_threshold (cb : CircuitBreaker) (now : Nat) (host : String)
    (hhost : host ≠ "") (hlt : cb.failuresOf host < cb.threshold) :
    cb.allow now host = (true, cb) := by
  simp [CircuitBreaker.allow, hhost, hlt]

theorem allow_denied (cb : CircuitBreaker) (now : Nat) (host : String)
    (hhost : host ≠ "") (hge : cb.threshold ≤ cb.failuresOf host)
    (hcd : now - cb.lastSeenOf host ≤ cb.cooldown) :
    cb.allow now host = (false, cb) := by
  have h1 : ¬ cb.failuresOf host < cb.threshold := by omega
  have h2 : ¬ cb.cooldown < now - cb.lastSeenOf host := by omega
  simp [CircuitBreaker.allow, hhost, h1, gt_iff_lt, h2]

theorem allow_cleared (cb : CircuitBreaker) (now : Nat) (host : String)
    (hhost : host ≠ "") (hge : cb.threshold ≤ cb.failuresOf host)
    (hcd : cb.cooldown < now - cb.lastSeenOf host) :
    cb.allow now host =
      (true, { cb with failures := eraseA cb.failures host,
                       lastSeen := eraseA cb.lastSeen host }) := by
  have h1 : ¬ cb.failuresOf host < cb.threshold := by omega
  simp [CircuitBreaker.allow, hhost, h1, gt_iff_lt, hcd]

theorem getLastD_of_ne_nil {α : Type} (l : List α) (h : l ≠ []) (d1 d2 : α) :
    l.getLastD d1 = l.getLastD d2 := by
  cases l with
  | nil => exact absurd rfl h
  | cons a rest =>
    obtain ⟨x, hx⟩ : ∃ x, (a :: rest).getLast? = some x := by
      have hs : (a :: rest).getLast?.isSome := List.getLast?_isSome.mpr (by simp)
      exact Option.isSome_iff_exists.mp hs
    simp [List.getLastD, hx]

/-- C7: for a non-empty host starting with no recorded failures, fewer
than threshold recorded failures leave allow true; after exactly
threshold recorded failures allow returns false while the cooldown
since the last failure has not elapsed; once the cooldown has elapsed
the next allow call clears the host's counters and returns true; and
success clears the host's counters unconditionally so allow returns
true immediately, regardless of cooldown. -/
theorem circuitBreaker_threshold_cooldown_reset (cb : CircuitBreaker) (host : String)
    (ts : List Nat) (now now2 : Nat) (hhost : host ≠ "")
    (h0 : cb.failuresOf host = 0) (hth : 0 < cb.threshold) :
    (ts.length < cb.threshold →
      ((applyFailures cb host ts).allow now host).1 = true) ∧
    (ts.length = cb.threshold → now - ts.getLastD 0 ≤ cb.cooldown →
      ((applyFailures cb host ts).allow now host).1 = false) ∧
    (ts.length = cb.threshold → now - ts.getLastD 0 > cb.cooldown →
      ((applyFailures cb host ts).allow now host).1 = true ∧
      ((applyFailures cb host ts).allow now host).2.failuresOf host = 0) ∧
    ((applyFailures cb host ts).success host).failuresOf host = 0 ∧
    (((applyFailures cb host ts).success host).allow now2 host).1 = true := by
  have hcnt := applyFailures_failuresOf host hhost ts cb
  rw [h0, Nat.zero_add] at hcnt
  have hthr := applyFailures_threshold cb host ts
  have hcool := applyFailures_cooldown cb host ts
  refine ⟨?_, ?_, ?_, ?_, ?_⟩
  · intro hlt
    rw [allow_below_threshold _ now host hhost (by omega)]
  · intro hlen hcd
    have hts : ts ≠ [] := by
      intro h
      rw [h] at hlen
      simp at hlen
      omega
    have hlast : (applyFailures cb host ts).lastSeenOf host = ts.getLastD 0 := by
      rw [applyFailures_lastSeenOf host hhost ts cb]
      exact getLastD_of_ne_nil ts hts _ _
    rw [allow_denied _ now host hhost (by omega) (by rw [hlast, hcool]; exact hcd)]
  · intro hlen hcd
    have hts : ts ≠ [] := by
      intro h
      rw [h] at hlen
      simp at hlen
      omega
    have hlast : (applyFailures cb host ts).lastSeenOf host = ts.getLastD 0 := by
      rw [applyFailures_lastSeenOf host hhost ts cb]
      exact getLastD_of_ne_nil ts hts _ _
    rw [allow_cleared _ now host hhost (by omega) (by rw [hlast, hcool]; omega)]
    refine ⟨rfl, ?_⟩
    simp [CircuitBreaker.failuresOf, findA_erase_self]
  · exact success_failuresOf_self (applyFailures cb host ts) host hhost
  · have hz := success_failuresOf_self (applyFailures cb host ts) host hhost
    have hthr2 := success_threshold (applyFailures cb host ts) host
    rw [hthr] at hthr2
    rw [allow_below_threshold _ now2 host hhost (by omega)]

/-- Closed instance of circuitBreaker_threshold_cooldown_reset at the
default breaker configuration: three failures open the breaker within
the cooldown, and success there closes it again at any later time. -/
theorem circuitBreaker_threshold_cooldown_reset_witness :
    ((applyFailures (newCircuitBreaker 3 30000) "example.com" [10, 20, 30]).allow 40
      "example.com").1 = false ∧
    (((applyFailures (newCircuitBreaker 3 30000) "example.com" [10, 20, 30]).success
      "example.com").allow 1000000 "example.com").1 = true := by
  have h := circuitBreaker_threshold_cooldown_reset (newCircuitBreaker 3 30000)
    "example.com" [10, 20, 30] 40 1000000 (by decide) (by decide) (by decide)
  exact ⟨h.2.1 (by decide) (by decide), h.2.2.2.2⟩

/-- C1: evaluation at the failing input. On an empty store, CreateTask
of one link with a failing repository append returns an error, yet the
task remains inserted in the in-memory index and a subsequent GetTasks
for its id returns it — contradicting the specified invariant that the
task is not considered created and is never returned. -/
theorem createTask_append_failure_leaves_task_visible :
    (FileStorage.createTask (FileStorage.load []) ["example.com"] false 0).1 = none ∧
    FileStorage.getTasks
      (FileStorage.createTask (FileStorage.load []) ["example.com"] false 0).2 [1] =
      [{ id := 1, links := ["example.com"], result := [] }] := by
  exact ⟨rfl, rfl⟩

/-- C10: UpdateTaskResult replaces the task's in-memory result before
attempting the log append, so a failed append returns an error while
the index already holds the new result; GetTasks then returns the
updated result although no update entry was durably written (the log is
unchanged). -/
theorem updateTaskResult_not_atomic_on_append_failure
    (s : FileStorage) (id : Nat) (result : List (String × String)) (t : Domain.Task)
    (now : Nat) (hfind : findA s.mem.tasks id = some t) :
    (s.updateTaskResult id result false now).1 = Except.error "append error" ∧
    findA (s.updateTaskResult id result false now).2.mem.tasks id =
      some { id := t.id, links := t.links, result := result } ∧
    (s.updateTaskResult id result false now).2.getTasks [id] =
      [{ id := t.id, links := t.links, result := result }] ∧
    (s.updateTaskResult id result false now).2.log = s.log := by
  simp [FileStorage.updateTaskResult, hfind, FileStorage.getTasks,
    List.filterMap, findA_insert_self]

/-- Log of one create entry for task 1, used to instantiate theorems
about stores holding an existing task. -/
def exLogOne : List LogEntry :=
  [{ op := "create", task := some { id := 1, links := ["a.com"], result := [] },
     taskID := 0, result := [], ts := 0 }]

/-- Closed instance of updateTaskResult_not_atomic_on_append_failure:
on a store holding task 1, a failed update append surfaces the error
while GetTasks already returns the new result and the log is unchanged. -/
theorem updateTaskResult_not_atomic_witness :
    ((FileStorage.load exLogOne).updateTaskResult 1 [("a.com", "available")] false 7).1 =
      Except.error "append error" ∧
    ((FileStorage.load exLogOne).updateTaskResult 1 [("a.com", "available")] false 7).2.getTasks
      [1] = [{ id := 1, links := ["a.com"], result := [("a.com", "available")] }] ∧
    ((FileStorage.load exLogOne).updateTaskResult 1 [("a.com", "available")] false 7).2.log =
      (FileStorage.load exLogOne).log := by
  have h := updateTaskResult_not_atomic_on_append_failure (FileStorage.load exLogOne) 1
    [("a.com", "available")] { id := 1, links := ["a.com"], result := [] } 7 (by decide)
  exact ⟨h.1, h.2.2.1, h.2.2.2⟩

theorem replay_append (l1 l2 : List LogEntry) :
    replay (l1 ++ l2) = l2.foldl MemIndex.applyEntry (replay l1) := by
  simp [replay, List.foldl_append]

/-- C9: after a successful CreateTask on a store loaded from any log,
reloading the store from its (extended) log and querying GetTasks for
the returned id yields a task with exactly the submitted links and an
empty result mapping. -/
theorem createTask_reload_roundtrip (entries : List LogEntry) (links : List String)
    (now : Nat) (t : Domain.Task) (st1 : FileStorage)
    (hcreate : (FileStorage.load entries).createTask links true now = (some t, st1)) :
    t.links = links ∧ t.result = [] ∧
    (FileStorage.load st1.log).getTasks [t.id] =
      [{ id := t.id, links := links, result := [] }] := by
  simp only [FileStorage.createTask, if_pos, Prod.mk.injEq, Option.some.injEq] at hcreate
  obtain ⟨ht, hst⟩ := hcreate
  subst ht
  subst hst
  refine ⟨rfl, rfl, ?_⟩
  simp only [FileStorage.load, FileStorage.getTasks, replay_append, List.foldl_cons,
    List.foldl_nil]
  simp [MemIndex.applyEntry, List.filterMap, findA_insert_self]

/-- Closed instance of createTask_reload_roundtrip: creating the first
task on an empty store and reloading from its log returns the same
links with an empty result. -/
theorem createTask_reload_roundtrip_witness :
    (FileStorage.load
      ((FileStorage.load []).createTask ["example.com", "go.dev"] true 3).2.log).getTasks
      [1] = [{ id := 1, links := ["example.com", "go.dev"], result := [] }] := by
  have h := createTask_reload_roundtrip [] ["example.com", "go.dev"] 3
    { id := 1, links := ["example.com", "go.dev"], result := [] }
    ((FileStorage.load []).createTask ["example.com", "go.dev"] true 3).2 (by decide)
  exact h.2.2

/-- C2: any link that trims to the empty string or contains one of the
rejected characters is refused by the syntax gate: the per-link check
returns NotAvailable with no transport invocation, no wait, and an
untouched breaker. -/
theorem checkLink_rejects_malformed_without_transport
    (env : CheckEnv) (cb : CircuitBreaker) (link : String)
    (hbad : trimChars link = [] ∨ ∃ c ∈ trimChars link, badURLChar c = true) :
    Service.checkLink env cb link =
      { status := .notAvailable, calls := [], waits := [], breaker := cb } := by
  have hval : validateURL link = false := by
    rcases hbad with h | h
    · simp [validateURL, h]
    · by_cases ht : trimChars link = []
      · simp [validateURL, ht]
      · have hany : (trimChars link).any badURLChar = true := by
          rw [List.any_eq_true]
          obtain ⟨c, hc1, hc2⟩ := h
          exact ⟨c, hc1, hc2⟩
        simp [validateURL, ht, hany]
  simp [Service.checkLink, hval]

/-- Environment whose external capabilities all answer negatively; any
transport invocation under it would be visible in the calls trace. -/
def exEnvNone : CheckEnv :=
  { parseURLHost := fun _ => none, parseIP := fun _ => none, lookupIP := fun _ => none,
    reqFails := fun _ _ => false, transport := fun _ _ => .transErr false,
    waitInterrupted := fun _ => false, timeAt := fun _ => 0, startTime := 0 }

/-- Closed instance of checkLink_rejects_malformed_without_transport on
a link containing a slash. -/
theorem checkLink_rejects_malformed_witness :
    Service.checkLink exEnvNone (newCircuitBreaker 3 30000) "example.com/path" =
      { status := .notAvailable, calls := [], waits := [],
        breaker := newCircuitBreaker 3 30000 } :=
  checkLink_rejects_malformed_without_transport exEnvNone (newCircuitBreaker 3 30000)
    "example.com/path" (Or.inr (by decide))

/-- C3: when the host of a link is classified private the check returns
NotAvailable with zero transport calls and an untouched breaker; a
failed resolution, an empty resolution, and an exclusively-private
resolution (or a private IP literal) are each classified private, while
a resolution containing at least one public address is not, letting the
host through the guard. -/
theorem ssrf_guard_blocks_private_hosts
    (env : CheckEnv) (cb : CircuitBreaker) (link host : String)
    (hhost : env.parseURLHost (normalizeURL link) = some host) :
    (isPrivateHost env host = true →
      Service.checkLinkBody env cb link =
        { status := .notAvailable, calls := [], waits := [], breaker := cb }) ∧
    (env.parseIP host = none → env.lookupIP host = none →
      isPrivateHost env host = true) ∧
    (env.parseIP host = none → env.lookupIP host = some [] →
      isPrivateHost env host = true) ∧
    (∀ ips, env.parseIP host = none → env.lookupIP host = some ips →
      ips.all isPrivateIP = true → isPrivateHost env host = true) ∧
    (∀ ip, env.parseIP host = some ip → isPrivateIP ip = true →
      isPrivateHost env host = true) ∧
    (∀ ips ip, env.parseIP host = none → env.lookupIP host = some ips → ip ∈ ips →
      isPrivateIP ip = false → isPrivateHost env host = false) := by
  refine ⟨?_, ?_, ?_, ?_, ?_, ?_⟩
  · intro hpriv
    simp [Service.checkLinkBody, hhost, hpriv]
  · intro h1 h2
    simp [isPrivateHost, h1, h2]
  · intro h1 h2
    simp [isPrivateHost, h1, h2]
  · intro ips h1 h2 hall
    by_cases he : ips.isEmpty <;> simp [isPrivateHost, h1, h2, he, hall]
  · intro ip h1 hpriv
    simp [isPrivateHost, h1, hpriv]
  · intro ips ip h1 h2 hmem hpub
    have hne : ¬ ips.isEmpty := by
      cases ips with
      | nil => simp at hmem
      | cons a r => simp
    have hall : ips.all isPrivateIP = false := by
      rw [List.all_eq_false]
      exact ⟨ip, hmem, by simp [hpub]⟩
    simp [isPrivateHost, h1, h2, hne, hall]

/-- Environment of a host that resolves only to a 10/8 address. -/
def exEnvPriv : CheckEnv :=
  { parseURLHost := fun u => if u = "https://intra.lan" then some "intra.lan" else none,
    parseIP := fun _ => none,
    lookupIP := fun h => if h = "intra.lan" then some [.v4 10 0 0 1] else none,
    reqFails := fun _ _ => false, transport := fun _ _ => .resp 200,
    waitInterrupted := fun _ => false, timeAt := fun _ => 0, startTime := 0 }

/-- Closed instance of ssrf_guard_blocks_private_hosts: a host whose
only resolved address is 10.0.0.1 is blocked with no transport call and
an untouched breaker. -/
theorem ssrf_guard_blocks_private_hosts_witness :
    Service.checkLinkBody exEnvPriv (newCircuitBreaker 3 30000) "intra.lan" =
      { status := .notAvailable, calls := [], waits := [],
        breaker := newCircuitBreaker 3 30000 } :=
  (ssrf_guard_blocks_private_hosts exEnvPriv (newCircuitBreaker 3 30000) "intra.lan"
    "intra.lan" (by decide)).1 (by decide)

theorem retryLoop_schedule (env : CheckEnv) (url host : String) (bs : List Nat) :
    ∀ (i : Nat) (cb : CircuitBreaker),
      (retryLoop env url host bs i cb).calls.length ≤ bs.length ∧
      (retryLoop env url host bs i cb).waits.length < max bs.length 1 ∧
      (retryLoop env url host bs i cb).waits =
        bs.take (retryLoop env url host bs i cb).waits.length := by
  induction bs with
  | nil => intro i cb; simp [retryLoop]
  | cons d rest ih =>
    intro i cb
    simp only [retryLoop]
    by_cases hreq : env.reqFails url i
    · simp [hreq]
    · simp only [hreq, Bool.false_eq_true, if_false]
      cases htr : env.transport url i with
      | resp st =>
        by_cases hst : 200 ≤ st ∧ st < 400
        · simp [hst]
        · simp only [hst, if_false]
          cases rest with
          | nil => simp
          | cons d2 r2 =>
            by_cases hw : env.waitInterrupted i
            · simp [hw]
            · simp only [hw, Bool.false_eq_true, if_false]
              obtain ⟨ih1, ih2, ih3⟩ := ih (i + 1) (cb.failure (env.timeAt i) host)
              refine ⟨?_, ?_, ?_⟩
              · simp only [List.length_cons] at ih1 ⊢
                omega
              · simp only [List.length_cons] at ih2 ⊢
                omega
              · simp only [List.length_cons, List.take_succ_cons, List.cons.injEq]
                exact ⟨trivial, ih3⟩
      | transErr ctxDone =>
        by_cases hcd : ctxDone
        · simp [hcd]
        · simp only [hcd, Bool.false_eq_true, if_false]
          cases rest with
          | nil => simp
          | cons d2 r2 =>
            by_cases hw : env.waitInterrupted i
            · simp [hw]
            · simp only [hw, Bool.false_eq_true, if_false]
              obtain ⟨ih1, ih2, ih3⟩ := ih (i + 1) (cb.failure (env.timeAt i) host)
              refine ⟨?_, ?_, ?_⟩
              · simp only [List.length_cons] at ih1 ⊢
                omega
              · simp only [List.length_cons] at ih2 ⊢
                omega
              · simp only [List.length_cons, List.take_succ_cons, List.cons.injEq]
                exact ⟨trivial, ih3⟩

/-- Environment of a public host whose transport always answers 503. -/
def env503 : CheckEnv :=
  { parseURLHost := fun u => if u = "https://example.com" then some "example.com" else none,
    parseIP := fun _ => none,
    lookupIP := fun h => if h = "example.com" then some [.v4 93 184 216 34] else none,
    reqFails := fun _ _ => false,
    transport := fun _ _ => .resp 503,
    waitInterrupted := fun _ => false,
    timeAt := fun i => i,
    startTime := 0 }

/-- C5: the retry loop runs over the schedule 100/300/900 ms, makes at
most three attempts, and the waits it performs are exactly an initial
segment of that schedule of length at most two, i.e. the wait after
attempt k is the k-th schedule entry and no wait follows the last
attempt; in particular a transport answering 503 for a single public
host yields NotAvailable after exactly three attempts with waits of
100 ms and 300 ms between them, and that host's breaker failure count
reaches three. -/
theorem retry_schedule_and_503_scenario :
    backoffs = [100, 300, 900] ∧
    (∀ (env : CheckEnv) (cb : CircuitBreaker) (link : String),
      (Service.checkLink env cb link).calls.length ≤ 3 ∧
      (Service.checkLink env cb link).waits.length ≤ 2 ∧
      (Service.checkLink env cb link).waits =
        backoffs.take (Service.checkLink env cb link).waits.length) ∧
    (Service.checkLink env503 (newCircuitBreaker 3 30000) "example.com").status =
      LinkStatus.notAvailable ∧
    (Service.checkLink env503 (newCircuitBreaker 3 30000) "example.com").calls.length = 3 ∧
    (Service.checkLink env503 (newCircuitBreaker 3 30000) "example.com").waits = [100, 300] ∧
    (Service.checkLink env503 (newCircuitBreaker 3 30000) "example.com").breaker.failuresOf
      "example.com" = 3 := by
  refine ⟨rfl, ?_, by decide, by decide, by decide, by decide⟩
  intro env cb link
  unfold Service.checkLink
  by_cases hv : validateURL link = true
  · rw [if_pos hv]
    unfold Service.checkLinkBody
    rcases hp : env.parseURLHost (normalizeURL link) with _ | host
    · simp [hp]
    · simp only [hp]
      by_cases hpriv : isPrivateHost env host = true
      · simp [hpriv]
      · simp only [hpriv, Bool.false_eq_true, if_false]
        by_cases hg : (cb.allow env.startTime host).1 = true
        · rw [if_pos hg]
          obtain ⟨h1, h2, h3⟩ := retryLoop_schedule env (normalizeURL link) host backoffs 0
            (cb.allow env.startTime host).2
          have hlen : backoffs.length = 3 := rfl
          rw [hlen] at h1 h2
          exact ⟨h1, by omega, h3⟩
        · rw [if_neg hg]
          exact ⟨by simp, by simp, by simp⟩
  · rw [if_neg hv]
    exact ⟨by simp, by simp, by simp⟩

/-- Environment of a public host whose transport answers 200. -/
def envOK : CheckEnv :=
  { parseURLHost := fun u => if u = "https://example.com" then some "example.com" else none,
    parseIP := fun _ => none,
    lookupIP := fun h => if h = "example.com" then some [.v4 93 184 216 34] else none,
    reqFails := fun _ _ => false,
    transport := fun _ _ => .resp 200,
    waitInterrupted := fun _ => false,
    timeAt := fun i => i,
    startTime := 0 }

/-- Orchestration environment where the create append succeeds and the
synchronous update append fails, with every permit acquired. -/
def svcEnvDeferred : SvcEnv :=
  { check := envOK, acquired := fun _ => true, createAppendOk := true,
    updateAppendOk := false, now := 0 }

/-- C4 counterexample: with creation succeeding and the synchronous
update append failing, CheckLinks surfaces the ErrResultPersistDeferred
sentinel as its error value rather than a nil error — the claim as
stated (nil error, deferral in a dedicated flag) is false on the code,
whose API has no deferred flag. The id, the fully computed result and
the single spawned retrier accompany the sentinel. -/
theorem checkLinks_deferred_error_not_nil :
    (Service.checkLinks svcEnvDeferred (FileStorage.load []) (newCircuitBreaker 3 30000)
      ["example.com"]).err ≠ none ∧
    (Service.checkLinks svcEnvDeferred (FileStorage.load []) (newCircuitBreaker 3 30000)
      ["example.com"]).err = some SvcErr.persistDeferred ∧
    (Service.checkLinks svcEnvDeferred (FileStorage.load []) (newCircuitBreaker 3 30000)
      ["example.com"]).result = [("example.com", LinkStatus.available)] ∧
    (Service.checkLinks svcEnvDeferred (FileStorage.load []) (newCircuitBreaker 3 30000)
      ["example.com"]).retriers = 1 := by
  refine ⟨by decide, by decide, by decide, by decide⟩

theorem runChecksAux_congr (env env2 : SvcEnv) (hc : env2.check = env.check)
    (ha : env2.acquired = env.acquired) :
    ∀ (links : List String) acc, runChecksAux env2 links acc = runChecksAux env links acc := by
  intro links
  induction links with
  | nil => intro acc; rfl
  | cons l rest ih =>
    intro acc
    simp only [runChecksAux, hc, ha]
    by_cases h : env.acquired l = true
    · rw [if_pos h, if_pos h]
      exact ih _
    · rw [if_neg h, if_neg h]
      exact ih acc

theorem runChecks_congr (env env2 : SvcEnv) (cb : CircuitBreaker) (links : List String)
    (hc : env2.check = env.check) (ha : env2.acquired = env.acquired) :
    runChecks env2 cb links = runChecks env cb links :=
  runChecksAux_congr env env2 hc ha links ([], cb, [])

/-- C4 as amended: once task creation succeeds, CheckLinks never
hard-fails — its error is nil or the ErrResultPersistDeferred sentinel;
and when the synchronous update fails it returns the allocated task id,
the same fully computed result map as a run whose update succeeds, the
sentinel as the dedicated deferral signal, and spawns exactly one
background retrier. -/
theorem checkLinks_deferred_persistence (env : SvcEnv) (st : FileStorage)
    (cb : CircuitBreaker) (links : List String)
    (hcreate : env.createAppendOk = true) :
    ((Service.checkLinks env st cb links).err = none ∨
      (Service.checkLinks env st cb links).err = some SvcErr.persistDeferred) ∧
    (env.updateAppendOk = false →
      (Service.checkLinks env st cb links).err = some SvcErr.persistDeferred ∧
      (Service.checkLinks env st cb links).retriers = 1 ∧
      (Service.checkLinks env st cb links).taskID = st.mem.nextID ∧
      (Service.checkLinks env st cb links).result =
        (Service.checkLinks { env with updateAppendOk := true } st cb links).result) := by
  unfold Service.checkLinks
  rw [hcreate]
  simp only [FileStorage.createTask, if_pos]
  simp only [FileStorage.updateTaskResult, findA_insert_self]
  cases hupd : env.updateAppendOk with
  | true =>
    simp only [if_pos]
    exact ⟨Or.inl trivial, by intro h; simp at h⟩
  | false =>
    simp only [Bool.false_eq_true, if_false]
    refine ⟨Or.inr trivial, fun _ => ⟨trivial, trivial, trivial, ?_⟩⟩
    rw [if_pos trivial]
    rw [runChecks_congr env
      { check := env.check, acquired := env.acquired, createAppendOk := true,
        updateAppendOk := true, now := env.now } cb links rfl rfl]

/-- Closed instance of checkLinks_deferred_persistence: the deferred
run returns task id 1, one retrier, and the same result map as the
durable run. -/
theorem checkLinks_deferred_persistence_witness :
    (Service.checkLinks svcEnvDeferred (FileStorage.load []) (newCircuitBreaker 3 30000)
      ["example.com"]).retriers = 1 ∧
    (Service.checkLinks svcEnvDeferred (FileStorage.load []) (newCircuitBreaker 3 30000)
      ["example.com"]).taskID = 1 ∧
    (Service.checkLinks svcEnvDeferred (FileStorage.load []) (newCircuitBreaker 3 30000)
      ["example.com"]).result =
      (Service.checkLinks { svcEnvDeferred with updateAppendOk := true } (FileStorage.load [])
        (newCircuitBreaker 3 30000) ["example.com"]).result := by
  have h := checkLinks_deferred_persistence svcEnvDeferred (FileStorage.load [])
    (newCircuitBreaker 3 30000) ["example.com"] rfl
  exact ⟨(h.2 rfl).2.1, (h.2 rfl).2.2.1, (h.2 rfl).2.2.2⟩

/-- Orchestration environment where no concurrency permit is acquired
before the shared deadline fires. -/
def svcEnvNoPermit : SvcEnv :=
  { check := envOK, acquired := fun _ => false, createAppendOk := true,
    updateAppendOk := true, now := 0 }

/-- C6 counterexample: a link whose permit is not acquired before the
deadline does not appear in the returned result map at all — the map
holds no NotAvailable entry for it, refuting the claim that the link is
assigned NotAvailable. -/
theorem checkLinks_unacquired_link_missing_from_result :
    findA (Service.checkLinks svcEnvNoPermit (FileStorage.load [])
      (newCircuitBreaker 3 30000) ["example.com"]).result "example.com" ≠
        some LinkStatus.notAvailable ∧
    findA (Service.checkLinks svcEnvNoPermit (FileStorage.load [])
      (newCircuitBreaker 3 30000) ["example.com"]).result "example.com" = none := by
  refine ⟨by decide, by decide⟩

theorem runChecksAux_unacquired (env : SvcEnv) (link : String)
    (hacq : env.acquired link = false) :
    ∀ (links : List String) acc,
      findA acc.1 link = none → (∀ cs, (link, cs) ∉ acc.2.2) →
      findA (runChecksAux env links acc).1 link = none ∧
      ∀ cs, (link, cs) ∉ (runChecksAux env links acc).2.2 := by
  intro links
  induction links with
  | nil => intro acc h1 h2; exact ⟨h1, h2⟩
  | cons l rest ih =>
    intro acc h1 h2
    by_cases hl : env.acquired l = true
    · have hne : link ≠ l := by
        intro he
        rw [he, hl] at hacq
        cases hacq
      simp only [runChecksAux, hl, if_pos]
      apply ih
      · rw [findA_insert_ne _ _ _ _ hne]
        exact h1
      · intro cs hmem
        rcases List.mem_append.mp hmem with hin | hin
        · exact h2 cs hin
        · rcases List.mem_singleton.mp hin with h
          exact hne (congrArg Prod.fst h)
    · simp only [runChecksAux, hl, if_neg]
      exact ih acc h1 h2

/-- C6 as amended: a link whose concurrency permit cannot be acquired
before the shared deadline fires is dropped: the returned result map
holds no entry for it at all (rather than a NotAvailable entry), and no
network attempt is made for it (it contributes no transport trace). -/
theorem checkLinks_unacquired_link_dropped (env : SvcEnv) (st : FileStorage)
    (cb : CircuitBreaker) (links : List String) (link : String)
    (hacq : env.acquired link = false) :
    findA (Service.checkLinks env st cb links).result link = none ∧
    ∀ cs, (link, cs) ∉ (Service.checkLinks env st cb links).traces := by
  unfold Service.checkLinks
  cases hc : env.createAppendOk with
  | false =>
    simp only [FileStorage.createTask, Bool.false_eq_true, if_false]
    exact ⟨rfl, by intro cs hmem; cases hmem⟩
  | true =>
    simp only [FileStorage.createTask, if_pos]
    simp only [FileStorage.updateTaskResult, findA_insert_self]
    have hrun := runChecksAux_unacquired env link hacq links ([], cb, []) rfl
      (by intro cs hmem; cases hmem)
    cases hu : env.updateAppendOk with
    | true =>
      simp only [if_pos]
      exact ⟨hrun.1, hrun.2⟩
    | false =>
      simp only [Bool.false_eq_true, if_false]
      exact ⟨hrun.1, hrun.2⟩

/-- Closed instance of checkLinks_unacquired_link_dropped on a batch of
two links with no permits available. -/
theorem checkLinks_unacquired_link_dropped_witness :
    findA (Service.checkLinks svcEnvNoPermit (FileStorage.load [])
      (newCircuitBreaker 3 30000) ["example.com", "go.dev"]).result "go.dev" = none := by
  have h := checkLinks_unacquired_link_dropped svcEnvNoPermit (FileStorage.load [])
    (newCircuitBreaker 3 30000) ["example.com", "go.dev"] "go.dev" rfl
  exact h.1

/-- The task snapshot of an entry when it is a create entry. -/
def LogEntry.createSnap (e : LogEntry) : Option Domain.Task :=
  if e.op = "create" then e.task else none

/-- Whether a log contains at least one create entry with a snapshot. -/
def hasCreate (log : List LogEntry) : Bool :=
  log.any (fun e => e.createSnap.isSome)

/-- The largest task id among the create entries of a log (zero when
there are none). -/
def maxCreateID : List LogEntry → Nat
  | [] => 0
  | e :: rest =>
    match e.createSnap with
    | some t => max t.id (maxCreateID rest)
    | none => maxCreateID rest

/-- The largest successor of a create id in a log (zero when there are
no create entries). -/
def maxCreateSucc : List LogEntry → Nat
  | [] => 0
  | e :: rest =>
    match e.createSnap with
    | some t => max (t.id + 1) (maxCreateSucc rest)
    | none => maxCreateSucc rest

/-- The result of the last update entry for the given id in a log, or
the default when there is none. -/
def lastUpdateResult (log : List LogEntry) (id : Nat) (d : List (String × String)) :
    List (String × String) :=
  log.foldl (fun r e => if e.op = "update" ∧ e.taskID = id then e.result else r) d

/-- Well-formedness of a log as the store produces it, relative to the
set of ids already created: create entries carry a snapshot with a
fresh positive id, update entries target an already created id. -/
def WFlog : List Nat → List LogEntry → Bool
  | _, [] => true
  | acc, e :: rest =>
    if e.op = "create" then
      match e.task with
      | none => false
      | some t => decide (1 ≤ t.id) && decide (t.id ∉ acc) && WFlog (t.id :: acc) rest
    else if e.op = "update" then decide (e.taskID ∈ acc) && WFlog acc rest
    else WFlog acc rest

theorem applyEntry_nextID (s : MemIndex) (e : LogEntry) :
    (MemIndex.applyEntry s e).nextID =
      match e.createSnap with
      | some t => max s.nextID (t.id + 1)
      | none => s.nextID := by
  unfold MemIndex.applyEntry LogEntry.createSnap
  by_cases hc : e.op = "create"
  · rw [if_pos hc, if_pos hc]
    cases e.task with
    | none => simp
    | some t =>
      dsimp only
      split <;> omega
  · rw [if_neg hc, if_neg hc]
    by_cases hu : e.op = "update"
    · rw [if_pos hu]
      by_cases hz : e.taskID = 0
      · rw [if_pos hz]
      · rw [if_neg hz]
        cases hf : findA s.tasks e.taskID <;> simp
    · rw [if_neg hu]

theorem foldl_applyEntry_nextID (log : List LogEntry) :
    ∀ s : MemIndex,
      (log.foldl MemIndex.applyEntry s).nextID = max s.nextID (maxCreateSucc log) := by
  induction log with
  | nil => intro s; simp [maxCreateSucc]
  | cons e rest ih =>
    intro s
    rw [List.foldl_cons, ih, applyEntry_nextID]
    cases hc : e.createSnap with
    | some t =>
      simp only [maxCreateSucc, hc]
      omega
    | none => simp [maxCreateSucc, hc]

theorem hasCreate_false_max (log : List LogEntry) (h : hasCreate log = false) :
    maxCreateSucc log = 0 ∧ maxCreateID log = 0 := by
  induction log with
  | nil => exact ⟨rfl, rfl⟩
  | cons e rest ih =>
    simp only [hasCreate, List.any_cons, Bool.or_eq_false_iff] at h
    obtain ⟨h1, h2⟩ := h
    have hc : e.createSnap = none := by
      cases hcc : e.createSnap
      · rfl
      · rw [hcc] at h1
        cases h1
    obtain ⟨ih1, ih2⟩ := ih h2
    simp [maxCreateSucc, maxCreateID, hc, ih1, ih2]

theorem maxCreateSucc_eq_max_plus_one (log : List LogEntry) (h : hasCreate log = true) :
    maxCreateSucc log = maxCreateID log + 1 := by
  induction log with
  | nil => simp [hasCreate] at h
  | cons e rest ih =>
    cases hc : e.createSnap with
    | some t =>
      by_cases hr : hasCreate rest = true
      · simp only [maxCreateSucc, maxCreateID, hc, ih hr]
        omega
      · have hf : hasCreate rest = false := by
          cases hh : hasCreate rest
          · rfl
          · exact absurd hh hr
        obtain ⟨h1, h2⟩ := hasCreate_false_max rest hf
        simp [maxCreateSucc, maxCreateID, hc, h1, h2]
    | none =>
      have hr : hasCreate rest = true := by
        simp only [hasCreate, List.any_cons, hc, Option.isSome_none, Bool.false_or] at h
        exact h
      simp [maxCreateSucc, maxCreateID, hc, ih hr]

theorem wf_create_fresh :
    ∀ (log : List LogEntry) (acc : List Nat), WFlog acc log = true →
      ∀ e ∈ log, ∀ t : Domain.Task, e.createSnap = some t → t.id ∉ acc := by
  intro log
  induction log with
  | nil => intro acc hwf e he; cases he
  | cons e0 rest ih =>
    intro acc hwf e he t hct
    by_cases hc : e0.op = "create"
    · cases ht : e0.task with
      | none => simp [WFlog, hc, ht] at hwf
      | some t1 =>
        simp only [WFlog, hc, ht, if_pos, Bool.and_eq_true, decide_eq_true_eq] at hwf
        obtain ⟨⟨hid, hnin⟩, hrest⟩ := hwf
        rcases List.mem_cons.mp he with rfl | hein
        · have : t1 = t := by
            simp [LogEntry.createSnap, hc, ht] at hct
            exact hct
          subst this
          exact hnin
        · have hnin2 := ih (t1.id :: acc) hrest e hein t hct
          intro hin
          exact hnin2 (List.mem_cons_of_mem _ hin)
    · by_cases hu : e0.op = "update"
      · have h2 : WFlog acc (e0 :: rest) = (decide (e0.taskID ∈ acc) && WFlog acc rest) := by
          simp [WFlog, hc, hu]
        rw [h2, Bool.and_eq_true, decide_eq_true_eq] at hwf
        obtain ⟨htid, hrest⟩ := hwf
        rcases List.mem_cons.mp he with rfl | hein
        · simp [LogEntry.createSnap, hc] at hct
        · exact ih acc hrest e hein t hct
      · have hwf2 : WFlog acc rest = true := by
          simp only [WFlog, hc, hu, Bool.false_eq_true, if_false] at hwf
          exact hwf
        rcases List.mem_cons.mp he with rfl | hein
        · simp [LogEntry.createSnap, hc] at hct
        · exact ih acc hwf2 e hein t hct

theorem replay_tracks_task (X : Nat) (hX : X ≠ 0) :
    ∀ (log : List LogEntry) (acc : List Nat) (s : MemIndex) (t0 : Domain.Task),
      WFlog acc log = true → X ∈ acc → findA s.tasks X = some t0 →
      findA (log.foldl MemIndex.applyEntry s).tasks X =
        some { id := t0.id, links := t0.links,
               result := lastUpdateResult log X t0.result } := by
  intro log
  induction log with
  | nil =>
    intro acc s t0 hwf hmem hfind
    simpa [lastUpdateResult] using hfind
  | cons e rest ih =>
    intro acc s t0 hwf hmem hfind
    rw [List.foldl_cons]
    by_cases hc : e.op = "create"
    · cases ht : e.task with
      | none => simp [WFlog, hc, ht] at hwf
      | some t1 =>
        simp only [WFlog, hc, ht, if_pos, Bool.and_eq_true, decide_eq_true_eq] at hwf
        obtain ⟨⟨hid, hnin⟩, hrest⟩ := hwf
        have hne : X ≠ t1.id := by
          intro h
          exact hnin (h ▸ hmem)
        have hfind2 : findA (MemIndex.applyEntry s e).tasks X = some t0 := by
          simp only [MemIndex.applyEntry, hc, ht, if_pos]
          rw [findA_insert_ne _ _ _ _ hne]
          exact hfind
        have hlast : lastUpdateResult (e :: rest) X t0.result =
            lastUpdateResult rest X t0.result := by
          simp [lastUpdateResult, hc]
        rw [hlast]
        exact ih (t1.id :: acc) (MemIndex.applyEntry s e) t0 hrest
          (List.mem_cons_of_mem _ hmem) hfind2
    · by_cases hu : e.op = "update"
      · have h2 : WFlog acc (e :: rest) = (decide (e.taskID ∈ acc) && WFlog acc rest) := by
          simp [WFlog, hc, hu]
        rw [h2, Bool.and_eq_true, decide_eq_true_eq] at hwf
        obtain ⟨htid, hrest⟩ := hwf
        have happ : MemIndex.applyEntry s e =
            (if e.taskID = 0 then s
             else
               match findA s.tasks e.taskID with
               | none => s
               | some t =>
                 { nextID := s.nextID,
                   tasks := insertA s.tasks e.taskID
                     { id := t.id, links := t.links, result := e.result } }) := by
          simp [MemIndex.applyEntry, hc, hu]
        by_cases hX2 : e.taskID = X
        · have hz2 : ¬ e.taskID = 0 := by
            rw [hX2]
            exact hX
          have hfind2 : findA (MemIndex.applyEntry s e).tasks X =
              some { id := t0.id, links := t0.links, result := e.result } := by
            rw [happ, if_neg hz2, hX2, hfind]
            exact findA_insert_self _ _ _
          have hlast : lastUpdateResult (e :: rest) X t0.result =
              lastUpdateResult rest X e.result := by
            simp [lastUpdateResult, hu, hX2]
          rw [hlast]
          exact ih acc (MemIndex.applyEntry s e) _ hrest hmem hfind2
        · have hfind2 : findA (MemIndex.applyEntry s e).tasks X = some t0 := by
            rw [happ]
            by_cases hz : e.taskID = 0
            · rw [if_pos hz]
              exact hfind
            · rw [if_neg hz]
              rcases hf : findA s.tasks e.taskID with _ | t2
              · exact hfind
              · have hne : X ≠ e.taskID := fun h => hX2 h.symm
                dsimp only
                rw [findA_insert_ne _ _ _ _ hne]
                exact hfind
          have hlast : lastUpdateResult (e :: rest) X t0.result =
              lastUpdateResult rest X t0.result := by
            simp [lastUpdateResult, hX2]
          rw [hlast]
          exact ih acc (MemIndex.applyEntry s e) t0 hrest hmem hfind2
      · have hwf2 : WFlog acc rest = true := by
          simp only [WFlog, hc, hu, Bool.false_eq_true, if_false] at hwf
          exact hwf
        have happ : MemIndex.applyEntry s e = s := by
          simp [MemIndex.applyEntry, hc, hu]
        have hlast : lastUpdateResult (e :: rest) X t0.result =
            lastUpdateResult rest X t0.result := by
          simp [lastUpdateResult, hu]
        rw [happ, hlast]
        exact ih acc s t0 hwf2 hmem hfind

theorem wf_replay_create_final :
    ∀ (log : List LogEntry) (acc : List Nat) (s : MemIndex),
      WFlog acc log = true →
      ∀ e ∈ log, ∀ t : Domain.Task, e.createSnap = some t →
        findA (log.foldl MemIndex.applyEntry s).tasks t.id =
          some { id := t.id, links := t.links,
                 result := lastUpdateResult log t.id t.result } := by
  intro log
  induction log with
  | nil => intro acc s hwf e he; cases he
  | cons e0 rest ih =>
    intro acc s hwf e he t hct
    rw [List.foldl_cons]
    by_cases hc : e0.op = "create"
    · cases ht : e0.task with
      | none => simp [WFlog, hc, ht] at hwf
      | some t1 =>
        simp only [WFlog, hc, ht, if_pos, Bool.and_eq_true, decide_eq_true_eq] at hwf
        obtain ⟨⟨hid, hnin⟩, hrest⟩ := hwf
        rcases List.mem_cons.mp he with rfl | hein
        · have ht1 : t1 = t := by
            simp [LogEntry.createSnap, hc, ht] at hct
            exact hct
          subst ht1
          have hfind2 : findA (MemIndex.applyEntry s e).tasks t1.id =
              some { id := t1.id, links := t1.links, result := t1.result } := by
            simp only [MemIndex.applyEntry, hc, ht, if_pos]
            exact findA_insert_self _ _ _
          have hlast : lastUpdateResult (e :: rest) t1.id t1.result =
              lastUpdateResult rest t1.id t1.result := by
            simp [lastUpdateResult, hc]
          rw [hlast]
          exact replay_tracks_task t1.id (by omega) rest (t1.id :: acc)
            (MemIndex.applyEntry s e) _ hrest (List.mem_cons_self _ _) hfind2
        · have hlast : lastUpdateResult (e0 :: rest) t.id t.result =
              lastUpdateResult rest t.id t.result := by
            simp [lastUpdateResult, hc]
          rw [hlast]
          exact ih (t1.id :: acc) (MemIndex.applyEntry s e0) hrest e hein t hct
    · by_cases hu : e0.op = "update"
      · have h2 : WFlog acc (e0 :: rest) = (decide (e0.taskID ∈ acc) && WFlog acc rest) := by
          simp [WFlog, hc, hu]
        rw [h2, Bool.and_eq_true, decide_eq_true_eq] at hwf
        obtain ⟨htid, hrest⟩ := hwf
        rcases List.mem_cons.mp he with rfl | hein
        · simp [LogEntry.createSnap, hc] at hct
        · have hfresh := wf_create_fresh rest acc hrest e hein t hct
          have hne : e0.taskID ≠ t.id := fun h => hfresh (h ▸ htid)
          have hlast : lastUpdateResult (e0 :: rest) t.id t.result =
              lastUpdateResult rest t.id t.result := by
            simp [lastUpdateResult, hne]
          rw [hlast]
          exact ih acc (MemIndex.applyEntry s e0) hrest e hein t hct
      · have hwf2 : WFlog acc rest = true := by
          simp only [WFlog, hc, hu, Bool.false_eq_true, if_false] at hwf
          exact hwf
        rcases List.mem_cons.mp he with rfl | hein
        · simp [LogEntry.createSnap, hc] at hct
        · have hlast : lastUpdateResult (e0 :: rest) t.id t.result =
              lastUpdateResult rest t.id t.result := by
            simp [lastUpdateResult, hu]
          rw [hlast]
          exact ih acc (MemIndex.applyEntry s e0) hwf2 e hein t hct

/-- C8: replaying a well-formed log of create and update entries into
an empty index yields next-ID equal to the largest create id plus one;
each created task ends with the result of the last update entry for its
id, or the create snapshot's result when it has none; and applying an
update entry whose task id is absent from the index leaves the index
unchanged (it is silently ignored). -/
theorem replay_log_spec (log : List LogEntry) (s : MemIndex) (e1 : LogEntry)
    (hwf : WFlog [] log = true) :
    (hasCreate log = true → (replay log).nextID = maxCreateID log + 1) ∧
    (∀ e ∈ log, ∀ t : Domain.Task, e.createSnap = some t →
      findA (replay log).tasks t.id =
        some { id := t.id, links := t.links,
               result := lastUpdateResult log t.id t.result }) ∧
    (e1.op = "update" → findA s.tasks e1.taskID = none → s.applyEntry e1 = s) := by
  refine ⟨?_, ?_, ?_⟩
  · intro hhc
    have hr : replay log = log.foldl MemIndex.applyEntry { nextID := 1, tasks := [] } := rfl
    rw [hr, foldl_applyEntry_nextID, maxCreateSucc_eq_max_plus_one log hhc]
    dsimp only
    omega
  · intro e he t hct
    exact wf_replay_create_final log [] _ hwf e he t hct
  · intro hu hfind
    unfold MemIndex.applyEntry
    have hc : ¬ e1.op = "create" := by
      rw [hu]
      decide
    rw [if_neg hc, if_pos hu]
    by_cases hz : e1.taskID = 0
    · rw [if_pos hz]
    · rw [if_neg hz, hfind]

/-- A small well-formed log: two creates and one update. -/
def exLogC8 : List LogEntry :=
  [{ op := "create", task := some { id := 1, links := ["a.com"], result := [] },
     taskID := 0, result := [], ts := 0 },
   { op := "update", task := none, taskID := 1, result := [("a.com", "available")], ts := 1 },
   { op := "create", task := some { id := 2, links := ["b.com"], result := [] },
     taskID := 0, result := [], ts := 2 }]

/-- Closed instance of replay_log_spec: replaying two creates and one
update yields next-ID 3, task 1 carries the updated result, and an
update for the unknown id 5 leaves an index unchanged. -/
theorem replay_log_spec_witness :
    (replay exLogC8).nextID = 3 ∧
    findA (replay exLogC8).tasks 1 =
      some { id := 1, links := ["a.com"], result := [("a.com", "available")] } ∧
    MemIndex.applyEntry { nextID := 7, tasks := [] }
      { op := "update", task := none, taskID := 5, result := [], ts := 0 } =
      { nextID := 7, tasks := [] } := by
  have h := replay_log_spec exLogC8 { nextID := 7, tasks := [] }
    { op := "update", task := none, taskID := 5, result := [], ts := 0 } (by decide)
  refine ⟨h.1 rfl, ?_, h.2.2 rfl rfl⟩
  exact h.2.1
    { op := "create", task := some { id := 1, links := ["a.com"], result := [] },
      taskID := 0, result := [], ts := 0 } (by simp [exLogC8])
    { id := 1, links := ["a.com"], result := [] } rfl
